import Mathlib

/-!
# Verification of the probot event-store core

Shallow embedding of the concurrent event store, webhook signature
verification, event validation, query tools, relational cleanup and the
JSON-to-DB migration utility of the `pr_agent` package, together with
theorems settling the specification claims about them.

Source files embedded:
* `pr_agent/utils/file_lock.py` (`safe_read_json`, `safe_write_json`,
  `safe_append_json`)
* `pr_agent/webhook/security.py` (`verify_github_signature`)
* `pr_agent/models/events.py` (`WorkflowRun`, `CheckRun`, `GitHubEvent`)
* `pr_agent/tools/github_actions.py` (`get_recent_actions_events`,
  `get_workflow_status`)
* `pr_agent/db/operations.py` (`cleanup_old_events`)
* `pr_agent/db/migrate.py` (`migrate_json_to_db`)
-/

namespace Probot

/-! ## JSON values

A minimal JSON value type covering the shapes that reach the event store
(webhook payload fragments are objects with string, integer, boolean,
null, array and object members; floating-point numbers never occur in the
fields the models validate). -/

inductive JVal : Type where
  | jnull : JVal
  | jbool (b : Bool) : JVal
  | jint (n : Int) : JVal
  | jstr (s : String) : JVal
  | jarr (xs : List JVal) : JVal
  | jobj (fields : List (String × JVal)) : JVal

/-- First-match lookup in a JSON object's field list, the behaviour of
`dict.get` on the dict produced by `json.load` (Python's JSON parser keeps
the last duplicate key, but the store never produces duplicates). -/
def jlookup : List (String × JVal) → String → Option JVal
  | [], _ => none
  | (k, v) :: rest, key => if k = key then some v else jlookup rest key

/-! ## Python list-slice semantics

`l[-n:]` on a Python list: for `n ≥ 1` the last `min n (length l)`
elements; for `n = 0` the index `-0` is `0`, so the slice is the whole
list. -/

/-- Python's `l[-n:]` for a natural `n`. -/
def pySliceLast {α : Type} (l : List α) (n : Nat) : List α :=
  if n = 0 then l else l.drop (l.length - n)

/-! ## File-backend store (`pr_agent/utils/file_lock.py`)

The file holds one JSON document; the store keeps a list in it.  A file
is, from the reader's point of view, missing, present with bytes that do
not decode as text, decodable but not valid JSON, or a parsed list.
`safe_read_json` and `safe_write_json` each acquire and release their
own advisory exclusive `flock`; the embedding models the content level:
what a read returns and what a write leaves in the file. -/

/-- The observable state of the JSON file: absent; present but holding
bytes that do not decode as UTF-8; decodable text that is not valid
JSON; or a parsed list. -/
inductive FileState (α : Type) : Type where
  | missing : FileState α
  | undecodable : FileState α
  | corrupt : FileState α
  | valid (data : List α) : FileState α

/-- The Python exception `safe_read_json` lets escape: on undecodable
bytes `json.load` raises `UnicodeDecodeError`, a `ValueError` that is
neither a `json.JSONDecodeError` (the inner except clause) nor an
`IOError`/`OSError`/`TimeoutError` (the outer except clause), so it
propagates to the caller. -/
inductive PyErr : Type where
  | unicodeDecodeError : PyErr
deriving DecidableEq

/-- Model of `safe_read_json(file_path, default)`: a missing file returns
`default` (the literal `[]` when `default is None`); invalid JSON raises
`json.JSONDecodeError`, which is caught and returns the same fallback,
as are lock timeouts and I/O errors; but a file whose bytes do not
decode makes `json.load` raise `UnicodeDecodeError`, which both except
clauses miss, so the call raises. -/
def safe_read_json {α : Type} (file : FileState α) (default : Option (List α)) :
    Except PyErr (List α) :=
  match file with
  | .missing => .ok (default.getD [])
  | .undecodable => .error .unicodeDecodeError
  | .corrupt => .ok (default.getD [])
  | .valid data => .ok data

/-- Model of `safe_write_json(file_path, data, max_items)`: the list serialized
into the file.  When `max_items` is set and `len(data) > max_items` the
code replaces `data` with `data[-max_items:]` before writing. -/
def safe_write_json {α : Type} (data : List α) (max_items : Option Nat) :
    List α :=
  match max_items with
  | none => data
  | some m => if data.length > m then pySliceLast data m else data

/-- Model of `safe_append_json(file_path, new_item, max_items)`: reads the current
list via `safe_read_json` (one flock acquisition, released on return),
appends in memory, and writes back via `safe_write_json` (a second,
separate flock acquisition); the result is the contents written.  A
non-list file is replaced by a fresh list.  If the read raises, the
surrounding `except Exception` catches it and the function returns
`False` without writing, modelled as `none`. -/
def safe_append_json {α : Type} (file : FileState α) (new_item : α)
    (max_items : Option Nat) : Option (List α) :=
  match safe_read_json file (some []) with
  | .error _ => none
  | .ok existing_data => some (safe_write_json (existing_data ++ [new_item]) max_items)

/-! ## Interleavings of concurrent appends

Each call to `safe_append_json` is two separately locked sections: a
read that snapshots the whole file, then a write that replaces the file
with the snapshot plus the new item (truncated).  A system of appenders
is driven by a schedule of atomic actions; each action is one locked
section, which is exactly the serialization the `flock` grants. -/

/-- Model of `WorkflowRun`: required `name`, `status`, `run_number`, `html_url`;
optional `conclusion`, `updated_at`, `head_branch`, `head_sha`; extra
members preserved. -/
structure WorkflowRun : Type where
  name : String
  status : String
  conclusion : Option String
  run_number : Int
  html_url : String
  updated_at : Option String
  head_branch : Option String
  head_sha : Option String
  extra : List (String × JVal)

/-- Model of `CheckRun`: required `name`, `status`; optional `conclusion`,
`html_url`; extra members preserved. -/
structure CheckRun : Type where
  name : String
  status : String
  conclusion : Option String
  html_url : Option String
  extra : List (String × JVal)

/-- Model of `GitHubEvent`: required `timestamp`, `event_type`; optional
`action`, `workflow_run`, `check_run`, `repository`, `sender`; extra
members preserved.  The `timestamp` validator accepts any string. -/
structure GitHubEvent : Type where
  timestamp : String
  event_type : String
  action : Option String
  workflow_run : Option WorkflowRun
  check_run : Option CheckRun
  repository : Option String
  sender : Option String
  extra : List (String × JVal)

/-- A required string field: present and a JSON string, else reject. -/
def reqStr (fields : List (String × JVal)) (key : String) : Option String :=
  match jlookup fields key with
  | some (.jstr s) => some s
  | _ => none

/-- A required integer field: present and a JSON integer, else reject. -/
def reqInt (fields : List (String × JVal)) (key : String) : Option Int :=
  match jlookup fields key with
  | some (.jint n) => some n
  | _ => none

/-- An optional string field: absent or null gives `None`; a string is
kept; any other JSON type rejects the record. -/
def optStr (fields : List (String × JVal)) (key : String) :
    Option (Option String) :=
  match jlookup fields key with
  | none => some none
  | some .jnull => some none
  | some (.jstr s) => some (some s)
  | some _ => none

/-- The members of a JSON object that are not consumed by the model's
declared fields: kept, in order, under `extra = "allow"`. -/
def extraFields (fields : List (String × JVal)) (known : List String) :
    List (String × JVal) :=
  fields.filter fun kv => !(known.contains kv.1)

/-- Model of `WorkflowRun.model_validate` on a JSON value. -/
def validateWorkflowRun : JVal → Option WorkflowRun
  | .jobj fields => do
    let name ← reqStr fields "name"
    let status ← reqStr fields "status"
    let conclusion ← optStr fields "conclusion"
    let run_number ← reqInt fields "run_number"
    let html_url ← reqStr fields "html_url"
    let updated_at ← optStr fields "updated_at"
    let head_branch ← optStr fields "head_branch"
    let head_sha ← optStr fields "head_sha"
    some ⟨name, status, conclusion, run_number, html_url, updated_at,
      head_branch, head_sha,
      extraFields fields ["name", "status", "conclusion", "run_number",
        "html_url", "updated_at", "head_branch", "head_sha"]⟩
  | _ => none

/-- Model of `CheckRun.model_validate` on a JSON value. -/
def validateCheckRun : JVal → Option CheckRun
  | .jobj fields => do
    let name ← reqStr fields "name"
    let status ← reqStr fields "status"
    let conclusion ← optStr fields "conclusion"
    let html_url ← optStr fields "html_url"
    some ⟨name, status, conclusion, html_url,
      extraFields fields ["name", "status", "conclusion", "html_url"]⟩
  | _ => none

/-- An optional nested model field: absent or null gives `None`; an
object must validate as the nested model or the whole record is
rejected; any other JSON type rejects the record. -/
def optNested {β : Type} (validate : JVal → Option β)
    (fields : List (String × JVal)) (key : String) : Option (Option β) :=
  match jlookup fields key with
  | none => some none
  | some .jnull => some none
  | some v =>
    match validate v with
    | some b => some (some b)
    | none => none

/-- Model of `GitHubEvent.model_validate` on a JSON value: the record must be an
object with string `timestamp` and `event_type`; nested `workflow_run`
and `check_run` validate with their own models and a nested failure
fails the whole record; unknown members are preserved. -/
def validateGitHubEvent : JVal → Option GitHubEvent
  | .jobj fields => do
    let timestamp ← reqStr fields "timestamp"
    let event_type ← reqStr fields "event_type"
    let action ← optStr fields "action"
    let workflow_run ← optNested validateWorkflowRun fields "workflow_run"
    let check_run ← optNested validateCheckRun fields "check_run"
    let repository ← optStr fields "repository"
    let sender ← optStr fields "sender"
    some ⟨timestamp, event_type, action, workflow_run, check_run,
      repository, sender,
      extraFields fields ["timestamp", "event_type", "action",
        "workflow_run", "check_run", "repository", "sender"]⟩
  | _ => none

/-- The validation loop both query tools run over the raw records read
from the events file: validate each record, append on success, log and
`continue` on failure (`pr_agent/tools/github_actions.py`, lines 39-49
and 84-94). -/
def validateEvents : List JVal → List GitHubEvent
  | [] => []
  | r :: rest =>
    match validateGitHubEvent r with
    | some e => e :: validateEvents rest
    | none => validateEvents rest

/-! ## Query tools (`pr_agent/tools/github_actions.py`) -/

/-- Model of `get_recent_actions_events(limit)`: read the raw records, validate
them with the skip-on-failure loop, and return `events[-limit:]`.  The
embedding returns the event list that the code serializes to JSON. -/
def get_recent_actions_events (raws : List JVal) (limit : Nat) :
    List GitHubEvent :=
  pySliceLast (validateEvents raws) limit

/-- Model of `WorkflowStatus`: the query-side projection built per workflow
name. -/
structure WorkflowStatus : Type where
  name : String
  status : String
  conclusion : Option String
  run_number : Int
  updated_at : String
  html_url : String
deriving DecidableEq

/-- Model of `updated_at = run.updated_at or event.timestamp`: Python `or` falls
through on `None` and on the empty string. -/
def effectiveUpdatedAt (e : GitHubEvent) (run : WorkflowRun) : String :=
  match run.updated_at with
  | some s => if s = "" then e.timestamp else s
  | none => e.timestamp

/-- The `WorkflowStatus` the loop constructs from one workflow event. -/
def mkWorkflowStatus (run : WorkflowRun) (updated_at : String) :
    WorkflowStatus :=
  ⟨run.name, run.status, run.conclusion, run.run_number, updated_at,
    run.html_url⟩

/-- Python dict lookup on the insertion-ordered association list that
models `workflows`. -/
def dictGet {β : Type} : List (String × β) → String → Option β
  | [], _ => none
  | (k, v) :: rest, key => if k = key then some v else dictGet rest key

/-- Python dict assignment `workflows[name] = ws`: replace in place if
the key exists (keeping its position), else append. -/
def dictPut {β : Type} : List (String × β) → String → β → List (String × β)
  | [], key, ws => [(key, ws)]
  | (k, v) :: rest, key, ws =>
    if k = key then (k, ws) :: rest else (k, v) :: dictPut rest key ws

/-- One iteration of the grouping loop in `get_workflow_status`: skip
events without a run; otherwise install the event's status if the name
is new or its effective `updated_at` is strictly greater (Python `>` on
strings, i.e. lexicographic) than the stored one. -/
def statusStep (m : List (String × WorkflowStatus)) (e : GitHubEvent) :
    List (String × WorkflowStatus) :=
  match e.workflow_run with
  | none => m
  | some run =>
    let upd := effectiveUpdatedAt e run
    match dictGet m run.name with
    | none => dictPut m run.name (mkWorkflowStatus run upd)
    | some cur =>
      if cur.updated_at < upd then dictPut m run.name (mkWorkflowStatus run upd)
      else m

/-- The grouping loop of `get_workflow_status` over a list of validated
events, starting from the empty dict. -/
def workflowStatusFold (events : List GitHubEvent) :
    List (String × WorkflowStatus) :=
  events.foldl statusStep []

/-- Model of `get_workflow_status(workflow_name)`: validate the raw records with
the skip-on-failure loop, keep events carrying a `workflow_run`, filter
by name when one is given (Python truthiness: `None` and `""` skip the
filter), and group by name.  The embedding returns the
insertion-ordered name-to-status dict whose values the code
serializes. -/
def get_workflow_status (raws : List JVal) (workflow_name : Option String) :
    List (String × WorkflowStatus) :=
  let events := validateEvents raws
  let wfEvents := events.filter fun e => e.workflow_run.isSome
  let filtered :=
    match workflow_name with
    | none => wfEvents
    | some nm =>
      if nm = "" then wfEvents
      else wfEvents.filter fun e =>
        match e.workflow_run with
        | some run => run.name = nm
        | none => false
  workflowStatusFold filtered

/-! ## Relational cleanup (`pr_agent/db/operations.py`, `cleanup_old_events`)

The table is modelled by the multiset of its event timestamps (the only
column cleanup reads or compares); the list order is row order, which no
statement here depends on.  `ORDER BY timestamp DESC OFFSET $1 LIMIT 1`
is: sort descending, skip `keep_count` rows, take the head.  `if
result:` on a `datetime` is a `None` test. -/

/-- Descending insertion of a timestamp into a descending-sorted
list. -/
def insertDesc (x : Nat) : List Nat → List Nat
  | [] => [x]
  | y :: ys => if y < x then x :: y :: ys else y :: insertDesc x ys

/-- Descending sort of the timestamps, the `ORDER BY timestamp DESC` of
the cutoff query. -/
def sortDesc : List Nat → List Nat
  | [] => []
  | x :: xs => insertDesc x (sortDesc xs)

/-- Model of `cleanup_old_events(keep_count)`: returns the deleted-row count and
the remaining table.  Fetch the timestamp at offset `keep_count` of the
descending sort; if no such row, do nothing and return 0; otherwise
delete every row with a strictly older timestamp. -/
def cleanup_old_events (table : List Nat) (keep_count : Nat) :
    Nat × List Nat :=
  let sortedDesc := sortDesc table
  match (sortedDesc.drop keep_count).head? with
  | none => (0, table)
  | some cutoff =>
    ((table.filter fun t => t < cutoff).length,
      table.filter fun t => !(t < cutoff))

/-! ## Migration utility (`pr_agent/db/migrate.py`) -/

/-- What a run of `migrate_json_to_db` did: the count it returned (or
the exception it let propagate, since the `safe_read_json` call sits
outside any try block) together with its effects on the destination
database. -/
structure MigrationResult : Type where
  returned : Except PyErr Nat
  inserted : List JVal
  schemaInitialized : Bool

/-- Model of `migrate_json_to_db(events_file, dry_run)`: a missing file returns 0
untouched; the file is read with `safe_read_json(default=[])`, whose
escaping `UnicodeDecodeError` propagates out of `migrate_json_to_db`
before any destination access; an empty list returns 0 untouched;
dry-run reports the record count and stops before `init_database` and
the insert loop; live mode initializes the schema then inserts record by
record, counting failures (modelled by the oracle `insertOk`) without
aborting, and returns the success count.  The per-record row
construction (timestamp parsing with fallback to now, field extraction
with defaults) deterministically precedes each insert and is not
modelled; `inserted` records which source records reached a successful
insert. -/
def migrate_json_to_db (events_file : FileState JVal) (dry_run : Bool)
    (insertOk : JVal → Bool) : MigrationResult :=
  match events_file with
  | .missing => ⟨.ok 0, [], false⟩
  | _ =>
    match safe_read_json events_file (some []) with
    | .error e => ⟨.error e, [], false⟩
    | .ok events_data =>
      if events_data.isEmpty then ⟨.ok 0, [], false⟩
      else if dry_run then ⟨.ok events_data.length, [], false⟩
      else
        ⟨.ok (events_data.filter insertOk).length, events_data.filter insertOk,
          true⟩

/-! ## SHA-256 and HMAC

The algorithm behind `hashlib.sha256` and `hmac.new(key, msg,
hashlib.sha256)`, as specified by FIPS 180-4 and RFC 2104: bytes and
32-bit words are naturals reduced modulo `2^32` where overflow matters.
Messages are byte lists. -/

/-- Reduction to a 32-bit word. -/
def w32 (n : Nat) : Nat := n % 4294967296

/-- Right rotation of a 32-bit word. -/
def rotr32 (n x : Nat) : Nat := w32 ((x >>> n) ||| (x <<< (32 - n)))

/-- Big sigma-0 of FIPS 180-4. -/
def bSig0 (x : Nat) : Nat := rotr32 2 x ^^^ rotr32 13 x ^^^ rotr32 22 x

/-- Big sigma-1 of FIPS 180-4. -/
def bSig1 (x : Nat) : Nat := rotr32 6 x ^^^ rotr32 11 x ^^^ rotr32 25 x

/-- Small sigma-0 of FIPS 180-4. -/
def sSig0 (x : Nat) : Nat := rotr32 7 x ^^^ rotr32 18 x ^^^ (x >>> 3)

/-- Small sigma-1 of FIPS 180-4. -/
def sSig1 (x : Nat) : Nat := rotr32 17 x ^^^ rotr32 19 x ^^^ (x >>> 10)

/-- The choice function `Ch`. -/
def chF (x y z : Nat) : Nat := (x &&& y) ^^^ ((x ^^^ 4294967295) &&& z)

/-- The majority function `Maj`. -/
def majF (x y z : Nat) : Nat := (x &&& y) ^^^ (x &&& z) ^^^ (y &&& z)

/-- The 64 SHA-256 round constants of FIPS 180-4 (the fractional parts
of the cube roots of the first 64 primes), written in decimal. -/
def sha256K : List Nat :=
  [1116352408, 1899447441, 3049323471, 3921009573,
   961987163, 1508970993, 2453635748, 2870763221,
   3624381080, 310598401, 607225278, 1426881987,
   1925078388, 2162078206, 2614888103, 3248222580,
   3835390401, 4022224774, 264347078, 604807628,
   770255983, 1249150122, 1555081692, 1996064986,
   2554220882, 2821834349, 2952996808, 3210313671,
   3336571891, 3584528711, 113926993, 338241895,
   666307205, 773529912, 1294757372, 1396182291,
   1695183700, 1986661051, 2177026350, 2456956037,
   2730485921, 2820302411, 3259730800, 3345764771,
   3516065817, 3600352804, 4094571909, 275423344,
   430227734, 506948616, 659060556, 883997877,
   958139571, 1322822218, 1537002063, 1747873779,
   1955562222, 2024104815, 2227730452, 2361852424,
   2428436474, 2756734187, 3204031479, 3329325298]

/-- The SHA-256 initial hash value of FIPS 180-4 (the fractional parts
of the square roots of the first 8 primes), written in decimal. -/
def sha256H0 : List Nat :=
  [1779033703, 3144134277, 1013904242, 2773480762,
   1359893119, 2600822924, 528734635, 1541459225]

/-- Message padding: append `0x80`, zeros to 56 mod 64, and the bit
length as 8 big-endian bytes. -/
def sha256Pad (msg : List Nat) : List Nat :=
  let L := msg.length
  let z := (119 - L % 64) % 64
  msg ++ 128 :: List.replicate z 0
    ++ (List.range 8).map fun i => ((8 * L) >>> (8 * (7 - i))) % 256

/-- Split a list into 64-byte blocks; the fuel argument (any bound on
the number of blocks, e.g. the list length) makes the recursion
structural. -/
def chunks64Aux : Nat → List Nat → List (List Nat)
  | 0, _ => []
  | fuel + 1, l =>
    if l.isEmpty then [] else l.take 64 :: chunks64Aux fuel (l.drop 64)

/-- Split the padded message into 64-byte blocks. -/
def chunks64 (l : List Nat) : List (List Nat) := chunks64Aux l.length l

/-- The 16 initial 32-bit schedule words of one block, big-endian. -/
def blockWords (block : List Nat) : List Nat :=
  (List.range 16).map fun i =>
    block.getD (4 * i) 0 * 16777216 + block.getD (4 * i + 1) 0 * 65536
      + block.getD (4 * i + 2) 0 * 256 + block.getD (4 * i + 3) 0

/-- Extend the message schedule by `n` further words. -/
def extendWords : Nat → List Nat → List Nat
  | 0, ws => ws
  | n + 1, ws =>
    let t := ws.length
    extendWords n (ws ++ [w32 (sSig1 (ws.getD (t - 2) 0) + ws.getD (t - 7) 0
      + sSig0 (ws.getD (t - 15) 0) + ws.getD (t - 16) 0)])

/-- The eight working variables of the compression function. -/
structure Hash8 : Type where
  a : Nat
  b : Nat
  c : Nat
  d : Nat
  e : Nat
  f : Nat
  g : Nat
  h : Nat

/-- One SHA-256 round, fed one round constant and one schedule word. -/
def sha256Round (st : Hash8) (kw : Nat × Nat) : Hash8 :=
  let t1 := w32 (st.h + bSig1 st.e + chF st.e st.f st.g + kw.1 + kw.2)
  let t2 := w32 (bSig0 st.a + majF st.a st.b st.c)
  ⟨w32 (t1 + t2), st.a, st.b, st.c, w32 (st.d + t1), st.e, st.f, st.g⟩

/-- Compression of one 64-byte block into the running hash (as a list
of 8 words). -/
def sha256Compress (hs : List Nat) (block : List Nat) : List Nat :=
  let st : Hash8 := ⟨hs.getD 0 0, hs.getD 1 0, hs.getD 2 0, hs.getD 3 0,
    hs.getD 4 0, hs.getD 5 0, hs.getD 6 0, hs.getD 7 0⟩
  let ws := extendWords 48 (blockWords block)
  let r := (sha256K.zip ws).foldl sha256Round st
  [w32 (st.a + r.a), w32 (st.b + r.b), w32 (st.c + r.c), w32 (st.d + r.d),
   w32 (st.e + r.e), w32 (st.f + r.f), w32 (st.g + r.g), w32 (st.h + r.h)]

/-- A 32-bit word as 4 big-endian bytes. -/
def word32BE (w : Nat) : List Nat :=
  [(w >>> 24) % 256, (w >>> 16) % 256, (w >>> 8) % 256, w % 256]

/-- SHA-256 digest (32 bytes) of a byte list. -/
def sha256 (msg : List Nat) : List Nat :=
  ((chunks64 (sha256Pad msg)).foldl sha256Compress sha256H0).flatMap word32BE

/-- The sixteen lowercase hex digits. -/
def hexDigits : List Char := "0123456789abcdef".data

/-- The hex digit of a value taken modulo 16. -/
def hexDigitChar (n : Nat) : Char := hexDigits.getD (n % 16) '0'

/-- A byte as two lowercase hex characters. -/
def byteToHex (b : Nat) : List Char := [hexDigitChar (b / 16), hexDigitChar b]

/-- A byte list as its lowercase hex string, the format of
`hexdigest()`. -/
def hexOfBytes (bs : List Nat) : String := ⟨bs.flatMap byteToHex⟩

/-- UTF-8 encoding of one character (RFC 3629), the behaviour of
`str.encode('utf-8')` per code point. -/
def utf8EncodeChar (c : Char) : List Nat :=
  let n := c.toNat
  if n < 128 then [n]
  else if n < 2048 then [192 ||| (n >>> 6), 128 ||| (n &&& 63)]
  else if n < 65536 then
    [224 ||| (n >>> 12), 128 ||| ((n >>> 6) &&& 63), 128 ||| (n &&& 63)]
  else
    [240 ||| (n >>> 18), 128 ||| ((n >>> 12) &&& 63),
     128 ||| ((n >>> 6) &&& 63), 128 ||| (n &&& 63)]

/-- UTF-8 encoding of a string, the behaviour of
`str.encode('utf-8')`. -/
def utf8Encode (s : String) : List Nat := s.data.flatMap utf8EncodeChar

/-- HMAC-SHA256 (RFC 2104): a key longer than the 64-byte block is first
hashed, the key is zero-padded to 64 bytes, and the digest is
`H((k ^ opad) ++ H((k ^ ipad) ++ msg))`. -/
def hmacSha256 (key msg : List Nat) : List Nat :=
  let k0 := if 64 < key.length then sha256 key else key
  let kp := k0 ++ List.replicate (64 - k0.length) 0
  sha256 ((kp.map fun b => b ^^^ 92) ++ sha256 ((kp.map fun b => b ^^^ 54) ++ msg))

/-- HMAC-SHA256 lowercase hex digest, the value of
`hmac.new(key, msg, hashlib.sha256).hexdigest()`. -/
def hmacSha256Hex (key msg : List Nat) : String := hexOfBytes (hmacSha256 key msg)

/-! ## Webhook signature verification (`pr_agent/webhook/security.py`) -/

/-- The distinguishable errors `verify_github_signature` can raise: the
three explicit `ValueError`s, and the `TypeError` that
`hmac.compare_digest` raises when given a non-ASCII string. -/
inductive VerifyError : Type where
  | secretNotConfigured : VerifyError
  | missingHeader : VerifyError
  | invalidFormat : VerifyError
  | comparisonTypeError : VerifyError
deriving DecidableEq

/-- Whether one character list is an initial segment of another. -/
def charsPrefix : List Char → List Char → Bool
  | [], _ => true
  | p :: ps, cs =>
    match cs with
    | [] => false
    | c :: rest => p = c && charsPrefix ps rest

/-- Python's `s.startswith(p)` on strings: code-point-wise initial
segment. -/
def pyStartsWith (s p : String) : Bool := charsPrefix p.data s.data

/-- Python's `s[n:]` on strings: drop the first `n` code points. -/
def pyStrDrop (s : String) (n : Nat) : String := ⟨s.data.drop n⟩

/-- Whether every character of a string is ASCII, the precondition
`hmac.compare_digest` imposes on `str` arguments. -/
def allAscii (s : String) : Bool := s.data.all fun c => c.toNat ≤ 127

/-- Model of `hmac.compare_digest(a, b)` on strings: equality when both
are ASCII; a `TypeError` otherwise.  (The constant-time execution is a
timing property with no content at this level.) -/
def compare_digest (a b : String) : Except VerifyError Bool :=
  if allAscii a && allAscii b then .ok (decide (a = b))
  else .error .comparisonTypeError

/-- Model of `verify_github_signature(payload_body, signature_header, secret)`:
an empty secret raises the configuration `ValueError`; a `None` or empty
header raises the missing-header `ValueError` (Python truthiness); a
header not starting with `"sha256="` raises the format `ValueError`;
otherwise the hex digest after the 7-character prefix is compared with
the HMAC-SHA256 hex digest of the payload under the UTF-8 encoded
secret. -/
def verify_github_signature (payload_body : List Nat)
    (signature_header : Option String) (secret : String) :
    Except VerifyError Bool :=
  if secret = "" then .error .secretNotConfigured
  else
    match signature_header with
    | none => .error .missingHeader
    | some s =>
      if s = "" then .error .missingHeader
      else if !(pyStartsWith s "sha256=") then .error .invalidFormat
      else
        let received_signature := pyStrDrop s 7
        let expected_signature := hmacSha256Hex (utf8Encode secret) payload_body
        compare_digest expected_signature received_signature

/-! ## Helper lemmas -/

/-- Sample raw event record used to instantiate witnesses. -/
def sampleRaw : JVal :=
  .jobj [("timestamp", .jstr "2024-01-01T00:00:00"), ("event_type", .jstr "push")]

theorem pySliceLast_length_le {α : Type} (l : List α) (n : Nat) (h : n ≠ 0) :
    (pySliceLast l n).length ≤ n := by
  simp only [pySliceLast, if_neg h, List.length_drop]
  omega

theorem safe_write_json_suffix {α : Type} (data : List α) (mi : Option Nat) :
    List.IsSuffix (safe_write_json data mi) data := by
  match mi with
  | none => exact List.suffix_refl data
  | some m =>
    simp only [safe_write_json]
    split
    · simp only [pySliceLast]
      split
      · exact List.suffix_refl data
      · exact List.drop_suffix _ _
    · exact List.suffix_refl data

/-! ## Claim theorems: file store -/

/-- C7 (counterexample): a file whose bytes do not decode as UTF-8 makes
`safe_read_json` raise `UnicodeDecodeError` instead of returning the
caller-supplied default: `json.load` raises it during the read, and it
is a `ValueError` caught neither by `except json.JSONDecodeError` nor by
`except (IOError, OSError, TimeoutError)`. -/
theorem safe_read_json_undecodable_raises :
    safe_read_json (FileState.undecodable (α := Nat)) (some [1])
      = .error .unicodeDecodeError
    ∧ safe_read_json (FileState.undecodable (α := Nat)) (some [1]) ≠ .ok [1]
    ∧ ∀ d : Option (List Nat),
        safe_read_json FileState.undecodable d = .error .unicodeDecodeError :=
  ⟨rfl, fun h => Except.noConfusion h, fun _ => rfl⟩

/-- C7 (amended): for every caller-supplied default, a missing file
returns the default (the empty list when no default is supplied), and a
file holding decodable but invalid JSON returns that same default
instead of propagating the parse error; but a file whose bytes do not
decode as UTF-8 makes the function raise `UnicodeDecodeError`, which
both except clauses miss. -/
theorem safe_read_json_fallback_paths {α : Type} (default : Option (List α)) :
    safe_read_json (FileState.missing (α := α)) default = .ok (default.getD [])
    ∧ safe_read_json (FileState.corrupt (α := α)) default = .ok (default.getD [])
    ∧ safe_read_json (FileState.missing (α := α)) none = .ok []
    ∧ safe_read_json (FileState.corrupt (α := α)) none = .ok []
    ∧ safe_read_json (FileState.undecodable (α := α)) default
        = .error .unicodeDecodeError :=
  ⟨rfl, rfl, rfl, rfl, rfl⟩

/-- C4 (counterexample): with `max_items = 0` and a non-empty list,
`len(data) > max_items` holds but `data[-0:]` is the whole list, so
`safe_write_json` does not write the last 0 elements as the claim's
universal quantification over `N` requires. -/
theorem safe_write_json_zero_cap_counterexample :
    safe_write_json [0] (some 0) = [0]
    ∧ safe_write_json ([0] : List Nat) (some 0) ≠ [] := by
  constructor
  · rfl
  · decide

/-- C4 (amended): for every list `data` and every `max_items = N ≥ 1`,
`safe_write_json` writes exactly the last `N` elements of `data` in
order when `len(data) > N` and writes `data` unchanged when
`len(data) ≤ N`; consequently every append with such a bound leaves at
most `N` stored events, dropping only the oldest entries.  For `N = 0`
the Python slice `data[-0:]` selects the whole list, so no truncation
ever happens. -/
theorem safe_write_json_bounded {α : Type} (data : List α) (m : Nat)
    (hm : 1 ≤ m) :
    (data.length > m →
      safe_write_json data (some m) = data.drop (data.length - m)
      ∧ (safe_write_json data (some m)).length = m)
    ∧ (data.length ≤ m → safe_write_json data (some m) = data)
    ∧ (safe_write_json data (some m)).length ≤ m
    ∧ ∀ (existing : List α) (item : α),
        safe_append_json (FileState.valid existing) item (some m)
          = some (safe_write_json (existing ++ [item]) (some m))
        ∧ (safe_write_json (existing ++ [item]) (some m)).length ≤ m
        ∧ List.IsSuffix (safe_write_json (existing ++ [item]) (some m))
            (existing ++ [item]) := by
  have hm0 : m ≠ 0 := by omega
  have hlen : ∀ (l : List α), (safe_write_json l (some m)).length ≤ m := by
    intro l
    simp only [safe_write_json]
    split
    · exact pySliceLast_length_le l m hm0
    · omega
  refine ⟨?_, ?_, hlen data, ?_⟩
  · intro hgt
    have hdrop : safe_write_json data (some m) = data.drop (data.length - m) := by
      simp only [safe_write_json, if_pos hgt, pySliceLast, if_neg hm0]
    refine ⟨hdrop, ?_⟩
    rw [hdrop, List.length_drop]
    omega
  · intro hle
    simp only [safe_write_json]
    rw [if_neg (by omega)]
  · intro existing item
    refine ⟨rfl, hlen _, ?_⟩
    exact safe_write_json_suffix (existing ++ [item]) (some m)

/-- C4 (witness): the amended bound at a concrete input. -/
theorem safe_write_json_bounded_witness :
    (safe_write_json [1, 2, 3] (some 2)).length ≤ 2 :=
  (safe_write_json_bounded [1, 2, 3] 2 (by decide)).2.2.1

/-! ## Claim theorems: concurrency of the two-phase append -/

/-- C10: `get_recent_actions_events` with `limit = 0` returns all
validated events, because `events[-0:]` is the whole list; only for
`limit ≥ 1` is the result bounded by `limit`. -/
theorem get_recent_actions_events_zero_limit (raws : List JVal) (limit : Nat)
    (hl : 1 ≤ limit) :
    get_recent_actions_events raws 0 = validateEvents raws
    ∧ (get_recent_actions_events raws limit).length ≤ limit := by
  constructor
  · rfl
  · exact pySliceLast_length_le _ _ (by omega)

/-- C10 (witness): the bounded-limit conjunct at a concrete input. -/
theorem get_recent_actions_events_zero_limit_witness :
    get_recent_actions_events [sampleRaw] 0 = validateEvents [sampleRaw]
    ∧ (get_recent_actions_events [sampleRaw] 1).length ≤ 1 :=
  get_recent_actions_events_zero_limit [sampleRaw] 1 (by decide)

/-! ## Claim theorems: relational cleanup -/

/-- C1 (code bug): on a table of 2 events with timestamps 1 and 2 and
`keep_count = 1`, `cleanup_old_events` deletes nothing and keeps both
events, because `OFFSET keep_count` fetches the 2nd most recent
timestamp and the strict `<` delete keeps the row carrying it; the claim
(and the function's own docstring, "keeping only the most recent N
events") requires 1 deletion with only the timestamp-2 event left. -/
theorem cleanup_old_events_keeps_one_extra :
    cleanup_old_events [1, 2] 1 = (0, [1, 2])
    ∧ cleanup_old_events [1, 2] 1 ≠ (1, [2]) := by
  constructor
  · rfl
  · decide

/-! ## Claim theorems: migration -/

/-- C8: `migrate_json_to_db` in dry-run mode performs no destination
inserts and no schema initialization (also on the path where the read
raises) and returns the number of records in the source; and in every
mode, a missing source file or a source holding an empty list yields 0
without touching the destination. -/
theorem migrate_dry_run_frame (fs : FileState JVal) (insertOk : JVal → Bool)
    (dry : Bool) (l : List JVal) :
    (migrate_json_to_db fs true insertOk).inserted = []
    ∧ (migrate_json_to_db fs true insertOk).schemaInitialized = false
    ∧ (fs = .valid l →
        (migrate_json_to_db fs true insertOk).returned = .ok l.length)
    ∧ migrate_json_to_db .missing dry insertOk = ⟨.ok 0, [], false⟩
    ∧ migrate_json_to_db (.valid []) dry insertOk = ⟨.ok 0, [], false⟩ := by
  refine ⟨?_, ?_, ?_, rfl, ?_⟩
  · cases fs with
    | missing => rfl
    | undecodable => rfl
    | corrupt => rfl
    | valid data =>
      simp only [migrate_json_to_db, safe_read_json]
      split <;> rfl
  · cases fs with
    | missing => rfl
    | undecodable => rfl
    | corrupt => rfl
    | valid data =>
      simp only [migrate_json_to_db, safe_read_json]
      split <;> rfl
  · rintro rfl
    simp only [migrate_json_to_db, safe_read_json]
    split
    · rename_i h
      simp only [List.isEmpty_iff] at h
      simp [h]
    · rfl
  · cases dry <;> rfl

/-- C8 (witness): the dry-run count at a concrete one-record source. -/
theorem migrate_dry_run_frame_witness :
    (migrate_json_to_db (.valid [sampleRaw]) true (fun _ => true)).returned
      = .ok 1 :=
  (migrate_dry_run_frame (.valid [sampleRaw]) (fun _ => true) true [sampleRaw]).2.2.1 rfl

/-! ## Claim theorems: batch validation -/

theorem validateEvents_eq_filterMap (raws : List JVal) :
    validateEvents raws = raws.filterMap validateGitHubEvent := by
  induction raws with
  | nil => rfl
  | cons r rest ih =>
    simp only [validateEvents, List.filterMap_cons]
    cases h : validateGitHubEvent r <;> simp [h, ih]

/-- C5: the validation loop shared by `get_recent_actions_events` and
`get_workflow_status` returns exactly the subset of raw records that
validate as events, in their original order; one invalid record is
skipped without aborting the batch or removing any valid record, and
both queries consume exactly this validated batch. -/
theorem validation_skips_invalid (raws xs ys : List JVal) (bad : JVal)
    (hbad : validateGitHubEvent bad = none) (limit : Nat) :
    validateEvents raws = raws.filterMap validateGitHubEvent
    ∧ validateEvents (xs ++ bad :: ys) = validateEvents xs ++ validateEvents ys
    ∧ (∀ r ∈ raws, ∀ e, validateGitHubEvent r = some e → e ∈ validateEvents raws)
    ∧ get_recent_actions_events raws limit = pySliceLast (validateEvents raws) limit
    ∧ get_workflow_status raws none
        = workflowStatusFold ((validateEvents raws).filter fun e =>
            e.workflow_run.isSome) := by
  refine ⟨validateEvents_eq_filterMap raws, ?_, ?_, rfl, rfl⟩
  · rw [validateEvents_eq_filterMap, validateEvents_eq_filterMap,
      validateEvents_eq_filterMap, List.filterMap_append, List.filterMap_cons,
      hbad]
  · intro r hr e he
    rw [validateEvents_eq_filterMap]
    exact List.mem_filterMap.mpr ⟨r, hr, he⟩

/-- C5 (witness): a null record between valid ones is skipped without
dropping the valid one. -/
theorem validation_skips_invalid_witness :
    validateEvents ([sampleRaw] ++ JVal.jnull :: [])
      = validateEvents [sampleRaw] ++ validateEvents [] :=
  (validation_skips_invalid [] [sampleRaw] [] .jnull rfl 0).2.1

/-! ## Claim theorems: signature verification -/

theorem hexDigits_all_ascii : ∀ c ∈ hexDigits, c.toNat ≤ 127 := by decide

theorem hexDigitChar_ascii (n : Nat) : (hexDigitChar n).toNat ≤ 127 := by
  have h16 : n % 16 < hexDigits.length := Nat.mod_lt n (by norm_num)
  have h : hexDigitChar n = hexDigits[n % 16] :=
    List.getD_eq_getElem hexDigits '0' h16
  rw [h]
  exact hexDigits_all_ascii _ (List.getElem_mem h16)

theorem allAscii_hexOfBytes (bs : List Nat) : allAscii (hexOfBytes bs) = true := by
  simp only [allAscii, hexOfBytes, List.all_eq_true, decide_eq_true_eq]
  intro c hc
  rw [List.mem_flatMap] at hc
  obtain ⟨b, _, hcb⟩ := hc
  simp only [byteToHex, List.mem_cons, List.not_mem_nil, or_false] at hcb
  rcases hcb with rfl | rfl <;> exact hexDigitChar_ascii _

theorem allAscii_hmacHex (key msg : List Nat) :
    allAscii (hmacSha256Hex key msg) = true :=
  allAscii_hexOfBytes _

theorem charsPrefix_append (p rest : List Char) :
    charsPrefix p (p ++ rest) = true := by
  induction p with
  | nil => rfl
  | cons c cs ih => simp [charsPrefix, ih]

theorem pyStartsWith_shaPrefix (digest : String) :
    pyStartsWith ("sha256=" ++ digest) "sha256=" = true := by
  simp only [pyStartsWith, String.data_append]
  exact charsPrefix_append _ _

theorem pyStrDrop_shaPrefix (digest : String) :
    pyStrDrop ("sha256=" ++ digest) 7 = digest := by
  simp only [pyStrDrop, String.data_append]
  have h : ("sha256=".data ++ digest.data).drop 7 = digest.data := by
    have h7 : "sha256=".data.length = 7 := rfl
    rw [← h7, List.drop_left]
  rw [h]

theorem shaPrefix_append_ne_empty (digest : String) :
    ("sha256=" ++ digest) ≠ "" := by
  intro h
  have hd := congrArg String.data h
  rw [String.data_append] at hd
  have hlen := congrArg List.length hd
  simp only [List.length_append] at hlen
  have h7 : "sha256=".data.length = 7 := rfl
  rw [h7] at hlen
  simp at hlen

theorem verify_some_eval (payload : List Nat) (s : String) (secret : String)
    (hs : secret ≠ "") (hse : s ≠ "") (hpre : pyStartsWith s "sha256=" = true) :
    verify_github_signature payload (some s) secret
      = compare_digest (hmacSha256Hex (utf8Encode secret) payload)
          (pyStrDrop s 7) := by
  simp only [verify_github_signature, if_neg hs, if_neg hse, hpre,
    Bool.not_true, Bool.false_eq_true, if_false]

theorem verify_eval (payload : List Nat) (digest : String) (secret : String)
    (hs : secret ≠ "") (hd : allAscii digest = true) :
    verify_github_signature payload (some ("sha256=" ++ digest)) secret
      = .ok (decide (hmacSha256Hex (utf8Encode secret) payload = digest)) := by
  rw [verify_some_eval payload _ secret hs (shaPrefix_append_ne_empty digest)
    (pyStartsWith_shaPrefix digest), pyStrDrop_shaPrefix]
  simp only [compare_digest, allAscii_hmacHex, hd, Bool.and_self, if_true]

/-- C2: for every non-empty secret, payload and header of the form
`"sha256="` followed by an (ASCII) digest, `verify_github_signature`
returns true exactly when the digest equals the HMAC-SHA256 hex digest
of the payload keyed by the UTF-8 encoded secret; the reference-computed
signature always verifies true; any altered digest — in particular one
with a flipped byte — verifies false; and an altered payload verifies
false whenever the alteration changes the HMAC digest (which is the
program-level content of the byte-flip clause; that every single-byte
flip changes the digest is collision-resistance of HMAC-SHA256, a
property of the hash, not of this code). -/
theorem verify_signature_exact (secret : String) (payload : List Nat)
    (digest : String) (hs : secret ≠ "") (hd : allAscii digest = true) :
    (verify_github_signature payload (some ("sha256=" ++ digest)) secret
        = .ok true
      ↔ digest = hmacSha256Hex (utf8Encode secret) payload)
    ∧ verify_github_signature payload
        (some ("sha256=" ++ hmacSha256Hex (utf8Encode secret) payload)) secret
        = .ok true
    ∧ (∀ digest2, allAscii digest2 = true
        → digest2 ≠ hmacSha256Hex (utf8Encode secret) payload
        → verify_github_signature payload (some ("sha256=" ++ digest2)) secret
            = .ok false)
    ∧ (∀ payload2,
        hmacSha256Hex (utf8Encode secret) payload2
          ≠ hmacSha256Hex (utf8Encode secret) payload
        → digest = hmacSha256Hex (utf8Encode secret) payload
        → verify_github_signature payload2 (some ("sha256=" ++ digest)) secret
            = .ok false) := by
  refine ⟨?_, ?_, ?_, ?_⟩
  · rw [verify_eval payload digest secret hs hd]
    simp only [Except.ok.injEq, decide_eq_true_eq]
    exact ⟨fun h => h.symm, fun h => h.symm⟩
  · rw [verify_eval payload (hmacSha256Hex (utf8Encode secret) payload) secret hs
      (allAscii_hmacHex _ _)]
    simp
  · intro digest2 hd2 hne
    rw [verify_eval payload digest2 secret hs hd2]
    simp only [Except.ok.injEq, decide_eq_false_iff_not]
    exact fun h => hne h.symm
  · intro payload2 hne heq
    rw [verify_eval payload2 digest secret hs hd]
    simp only [Except.ok.injEq, decide_eq_false_iff_not]
    rw [heq]
    exact hne

/-- C2 (witness): the reference-computed signature verifies true at a
concrete secret and payload. -/
theorem verify_signature_exact_witness :
    verify_github_signature [97]
      (some ("sha256=" ++ hmacSha256Hex (utf8Encode "k") [97])) "k" = .ok true :=
  (verify_signature_exact "k" [97] "00" (by decide) (by decide)).2.1

/-- C6 (counterexample): a header that does begin with `"sha256="` but
whose digest part contains a non-ASCII character makes
`verify_github_signature` raise (the `TypeError` of
`hmac.compare_digest` on non-ASCII strings) even though the secret is
non-empty and the header is present and well-prefixed, so the claim's
"raises an error in exactly these cases" fails. -/
theorem verify_nonascii_digest_raises :
    verify_github_signature [] (some "sha256=é") "topsecret"
      = .error .comparisonTypeError
    ∧ pyStartsWith "sha256=é" "sha256=" = true
    ∧ "topsecret" ≠ ""
    ∧ verify_github_signature [] (some "sha256=é") "topsecret" ≠ .ok true
    ∧ verify_github_signature [] (some "sha256=é") "topsecret" ≠ .ok false := by
  have h : verify_github_signature [] (some "sha256=é") "topsecret"
      = .error .comparisonTypeError := by
    rw [verify_some_eval _ _ _ (by decide) (by decide) (by decide)]
    have hr : pyStrDrop "sha256=é" 7 = "é" := by decide
    rw [hr]
    simp [compare_digest, show allAscii "é" = false by decide]
  refine ⟨h, by decide, by decide, ?_, ?_⟩
  · rw [h]; exact fun hc => Except.noConfusion hc
  · rw [h]; exact fun hc => Except.noConfusion hc

/-- C6 (amended): `verify_github_signature` raises exactly when the
secret is empty (configuration error), the header is absent or empty
(missing-header error, by Python truthiness), the header does not begin
with `"sha256="` (format error), or the digest part after the prefix
contains non-ASCII characters (`TypeError` from `hmac.compare_digest`);
in every other case it returns a boolean.  The empty-secret error and
the missing-header error are distinct. -/
theorem verify_raise_cases (payload : List Nat) (header : Option String)
    (secret : String) :
    ((∃ b, verify_github_signature payload header secret = .ok b)
       ↔ (secret ≠ "" ∧ ∃ s, header = some s ∧ pyStartsWith s "sha256=" = true
            ∧ allAscii (pyStrDrop s 7) = true))
    ∧ (secret = "" → verify_github_signature payload header secret
         = .error .secretNotConfigured)
    ∧ (secret ≠ "" → (verify_github_signature payload header secret
         = .error .missingHeader ↔ (header = none ∨ header = some "")))
    ∧ VerifyError.secretNotConfigured ≠ VerifyError.missingHeader := by
  by_cases hsec : secret = ""
  · subst hsec
    refine ⟨?_, fun _ => by simp [verify_github_signature],
      fun hc => absurd rfl hc, by decide⟩
    constructor
    · rintro ⟨b, hb⟩
      rw [show verify_github_signature payload header "" =
        .error .secretNotConfigured from by simp [verify_github_signature]] at hb
      exact Except.noConfusion hb
    · rintro ⟨hne, _⟩
      exact absurd rfl hne
  · cases header with
    | none =>
      have hvn : verify_github_signature payload none secret
          = .error .missingHeader := by
        simp [verify_github_signature, hsec]
      refine ⟨?_, fun h => absurd h hsec, fun _ => ?_, by decide⟩
      · constructor
        · rintro ⟨b, hb⟩
          rw [hvn] at hb
          exact Except.noConfusion hb
        · rintro ⟨_, s, hsome, _⟩
          exact Option.noConfusion hsome
      · exact ⟨fun _ => Or.inl rfl, fun _ => hvn⟩
    | some s =>
      by_cases hse : s = ""
      · subst hse
        have hvn : verify_github_signature payload (some "") secret
            = .error .missingHeader := by
          simp [verify_github_signature, hsec]
        refine ⟨?_, fun h => absurd h hsec,
          fun _ => ⟨fun _ => Or.inr rfl, fun _ => hvn⟩, by decide⟩
        constructor
        · rintro ⟨b, hb⟩
          rw [hvn] at hb
          exact Except.noConfusion hb
        · rintro ⟨_, s', hs', hpre, _⟩
          injection hs' with hs'
          rw [← hs'] at hpre
          exact absurd hpre (by decide)
      · by_cases hpre : pyStartsWith s "sha256=" = true
        · by_cases hA : allAscii (pyStrDrop s 7) = true
          · have hok : ∃ b, verify_github_signature payload (some s) secret
                = .ok b := by
              rw [verify_some_eval payload s secret hsec hse hpre]
              simp only [compare_digest, allAscii_hmacHex, hA, Bool.and_self,
                if_true]
              exact ⟨_, rfl⟩
            refine ⟨?_, fun h => absurd h hsec, fun _ => ?_, by decide⟩
            · exact ⟨fun _ => ⟨hsec, s, rfl, hpre, hA⟩, fun _ => hok⟩
            · constructor
              · intro hc
                obtain ⟨b, hb⟩ := hok
                rw [hb] at hc
                exact Except.noConfusion hc
              · rintro (hn | hn)
                · exact Option.noConfusion hn
                · injection hn with hn
                  exact absurd hn hse
          · have herr : verify_github_signature payload (some s) secret
                = .error .comparisonTypeError := by
              rw [verify_some_eval payload s secret hsec hse hpre]
              rw [Bool.not_eq_true] at hA
              simp only [compare_digest, hA, Bool.and_false,
                Bool.false_eq_true, if_false]
            refine ⟨?_, fun h => absurd h hsec, fun _ => ?_, by decide⟩
            · constructor
              · rintro ⟨b, hb⟩
                rw [herr] at hb
                exact Except.noConfusion hb
              · rintro ⟨_, s', hs', _, hA'⟩
                injection hs' with hs'
                rw [← hs'] at hA'
                rw [Bool.not_eq_true] at hA
                rw [hA] at hA'
                exact Bool.noConfusion hA'
            · constructor
              · intro hc
                rw [herr] at hc
                injection hc with hc
                exact absurd hc (by decide)
              · rintro (hn | hn)
                · exact Option.noConfusion hn
                · injection hn with hn
                  exact absurd hn hse
        · have herr : verify_github_signature payload (some s) secret
              = .error .invalidFormat := by
            rw [Bool.not_eq_true] at hpre
            simp [verify_github_signature, hsec, hse, hpre]
          refine ⟨?_, fun h => absurd h hsec, fun _ => ?_, by decide⟩
          · constructor
            · rintro ⟨b, hb⟩
              rw [herr] at hb
              exact Except.noConfusion hb
            · rintro ⟨_, s', hs', hpre', _⟩
              injection hs' with hs'
              rw [← hs'] at hpre'
              exact absurd hpre' hpre
          · constructor
            · intro hc
              rw [herr] at hc
              injection hc with hc
              exact absurd hc (by decide)
            · rintro (hn | hn)
              · exact Option.noConfusion hn
              · injection hn with hn
                exact absurd hn hse

/-- C6 (witness): a missing header with a configured secret raises the
missing-header error. -/
theorem verify_raise_cases_witness :
    verify_github_signature [] none "k" = .error .missingHeader :=
  ((verify_raise_cases [] none "k").2.2.1 (by decide)).mpr (Or.inl rfl)

/-! ## Claim theorems: workflow status aggregation -/

/-- The workflow events of a given name: each event carrying a
`workflow_run` whose `name` matches, with its run. -/
def eventsForName (events : List GitHubEvent) (name : String) :
    List (GitHubEvent × WorkflowRun) :=
  events.filterMap fun e =>
    match e.workflow_run with
    | some run => if run.name = name then some (e, run) else none
    | none => none

theorem dictGet_dictPut_self {β : Type} (m : List (String × β)) (k : String)
    (v : β) : dictGet (dictPut m k v) k = some v := by
  induction m with
  | nil => simp [dictPut, dictGet]
  | cons kv rest ih =>
    obtain ⟨k', v'⟩ := kv
    by_cases h : k' = k
    · simp [dictPut, dictGet, h]
    · simp [dictPut, dictGet, h, ih]

theorem dictGet_dictPut_ne {β : Type} (m : List (String × β)) (k k' : String)
    (v : β) (h : k' ≠ k) : dictGet (dictPut m k v) k' = dictGet m k' := by
  induction m with
  | nil =>
    simp only [dictPut, dictGet]
    rw [if_neg fun hh => h hh.symm]
  | cons kv rest ih =>
    obtain ⟨k'', v''⟩ := kv
    by_cases hk : k'' = k
    · subst hk
      simp only [dictPut, if_pos rfl]
      have : ¬ k'' = k' := fun hh => h (hh.symm)
      simp [dictGet, this]
    · simp only [dictPut, if_neg hk]
      by_cases hk' : k'' = k'
      · simp [dictGet, hk']
      · simp [dictGet, hk', ih]

theorem dictGet_eq_none_iff {β : Type} (m : List (String × β)) (k : String) :
    dictGet m k = none ↔ k ∉ m.map Prod.fst := by
  induction m with
  | nil => simp [dictGet]
  | cons kv rest ih =>
    obtain ⟨k', v'⟩ := kv
    by_cases h : k' = k
    · subst h
      simp [dictGet]
    · simp only [dictGet, if_neg h, List.map_cons, List.mem_cons]
      rw [ih]
      constructor
      · intro hk hmem
        rcases hmem with rfl | hmem
        · exact h rfl
        · exact hk hmem
      · intro hk hmem
        exact hk (Or.inr hmem)

theorem dictPut_keys_mem {β : Type} (m : List (String × β)) (k : String)
    (v : β) (h : dictGet m k ≠ none) :
    (dictPut m k v).map Prod.fst = m.map Prod.fst := by
  induction m with
  | nil => exact absurd rfl h
  | cons kv rest ih =>
    obtain ⟨k', v'⟩ := kv
    by_cases hk : k' = k
    · simp [dictPut, hk]
    · simp only [dictGet, if_neg hk] at h
      simp [dictPut, hk, ih h]

theorem dictPut_keys_new {β : Type} (m : List (String × β)) (k : String)
    (v : β) (h : dictGet m k = none) :
    (dictPut m k v).map Prod.fst = m.map Prod.fst ++ [k] := by
  induction m with
  | nil => simp [dictPut]
  | cons kv rest ih =>
    obtain ⟨k', v'⟩ := kv
    by_cases hk : k' = k
    · simp [dictGet, hk] at h
    · simp only [dictGet, if_neg hk] at h
      simp [dictPut, hk, ih h]

/-- The invariant the grouping loop maintains: one entry per name seen,
each holding the status of an event attaining the lexicographic maximum
of the effective `updated_at` values for that name. -/
def StatusInv (events : List GitHubEvent)
    (m : List (String × WorkflowStatus)) : Prop :=
  (m.map Prod.fst).Nodup
  ∧ ∀ name : String,
      ((dictGet m name).isSome = true ↔ eventsForName events name ≠ [])
      ∧ ∀ ws, dictGet m name = some ws →
          ∃ p ∈ eventsForName events name,
            ws = mkWorkflowStatus p.2 (effectiveUpdatedAt p.1 p.2)
            ∧ ∀ q ∈ eventsForName events name,
                ¬ ws.updated_at < effectiveUpdatedAt q.1 q.2

theorem statusInv_nil : StatusInv [] [] := by
  refine ⟨List.nodup_nil, fun name => ⟨?_, fun ws hws => ?_⟩⟩
  · simp [dictGet, eventsForName]
  · exact Option.noConfusion hws

theorem eventsForName_append_none (past : List GitHubEvent) (e : GitHubEvent)
    (hrun : e.workflow_run = none) (name : String) :
    eventsForName (past ++ [e]) name = eventsForName past name := by
  simp [eventsForName, List.filterMap_append, hrun]

theorem eventsForName_append_some (past : List GitHubEvent) (e : GitHubEvent)
    (run : WorkflowRun) (hrun : e.workflow_run = some run) (name : String) :
    eventsForName (past ++ [e]) name
      = eventsForName past name
        ++ (if run.name = name then [(e, run)] else []) := by
  simp only [eventsForName, List.filterMap_append, List.filterMap_cons,
    List.filterMap_nil, hrun]
  by_cases hn : run.name = name
  · simp [hn]
  · simp [hn]

theorem eventsForName_append_hit (past : List GitHubEvent) (e : GitHubEvent)
    (run : WorkflowRun) (hrun : e.workflow_run = some run) :
    eventsForName (past ++ [e]) run.name
      = eventsForName past run.name ++ [(e, run)] := by
  rw [eventsForName_append_some past e run hrun run.name, if_pos rfl]

theorem eventsForName_append_miss (past : List GitHubEvent) (e : GitHubEvent)
    (run : WorkflowRun) (hrun : e.workflow_run = some run) (name : String)
    (hn : run.name ≠ name) :
    eventsForName (past ++ [e]) name = eventsForName past name := by
  rw [eventsForName_append_some past e run hrun name, if_neg hn,
    List.append_nil]

theorem statusInv_step (past : List GitHubEvent)
    (m : List (String × WorkflowStatus)) (e : GitHubEvent)
    (h : StatusInv past m) : StatusInv (past ++ [e]) (statusStep m e) := by
  obtain ⟨hnodup, hall⟩ := h
  cases hrun : e.workflow_run with
  | none =>
    simp only [statusStep, hrun]
    refine ⟨hnodup, fun name => ?_⟩
    rw [eventsForName_append_none past e hrun name]
    exact hall name
  | some run =>
    simp only [statusStep, hrun]
    cases hc : dictGet m run.name with
    | none =>
      show StatusInv (past ++ [e])
        (dictPut m run.name (mkWorkflowStatus run (effectiveUpdatedAt e run)))
      refine ⟨?_, fun name => ?_⟩
      · rw [dictPut_keys_new m run.name _ hc]
        have hk : run.name ∉ m.map Prod.fst :=
          (dictGet_eq_none_iff m run.name).mp hc
        simp [List.nodup_append, hnodup, hk]
      · by_cases hn : run.name = name
        · subst hn
          rw [eventsForName_append_hit past e run hrun]
          have hEmpty : eventsForName past run.name = [] := by
            by_contra hne
            have hs := (hall run.name).1.mpr hne
            rw [hc] at hs
            exact Bool.noConfusion hs
          rw [hEmpty, List.nil_append]
          refine ⟨?_, fun ws hws => ?_⟩
          · rw [dictGet_dictPut_self]
            simp
          · rw [dictGet_dictPut_self] at hws
            injection hws with hws
            refine ⟨(e, run), by simp, hws.symm, fun q hq => ?_⟩
            rw [List.mem_singleton] at hq
            subst hq
            rw [← hws]
            exact lt_irrefl _
        · rw [eventsForName_append_miss past e run hrun name hn]
          rw [dictGet_dictPut_ne m run.name name _ fun hh => hn hh.symm]
          exact hall name
    | some cur =>
      show StatusInv (past ++ [e])
        (if cur.updated_at < effectiveUpdatedAt e run then
          dictPut m run.name (mkWorkflowStatus run (effectiveUpdatedAt e run))
        else m)
      by_cases hlt : cur.updated_at < effectiveUpdatedAt e run
      · rw [if_pos hlt]
        refine ⟨?_, fun name => ?_⟩
        · have hcne : dictGet m run.name ≠ none := by
            rw [hc]
            exact fun hh => Option.noConfusion hh
          rw [dictPut_keys_mem m run.name _ hcne]
          exact hnodup
        · by_cases hn : run.name = name
          · subst hn
            rw [eventsForName_append_hit past e run hrun]
            refine ⟨?_, fun ws hws => ?_⟩
            · rw [dictGet_dictPut_self]
              simp
            · rw [dictGet_dictPut_self] at hws
              injection hws with hws
              refine ⟨(e, run), List.mem_append_right _ (by simp), hws.symm,
                fun q hq => ?_⟩
              rcases List.mem_append.mp hq with hq | hq
              · obtain ⟨p, hp, hcur_eq, hmax⟩ := (hall run.name).2 cur hc
                have hle : effectiveUpdatedAt q.1 q.2 ≤ cur.updated_at :=
                  not_lt.mp (hmax q hq)
                have hql : effectiveUpdatedAt q.1 q.2 < effectiveUpdatedAt e run :=
                  lt_of_le_of_lt hle hlt
                rw [← hws]
                exact lt_asymm hql
              · rw [List.mem_singleton] at hq
                subst hq
                rw [← hws]
                exact lt_irrefl _
          · rw [eventsForName_append_miss past e run hrun name hn]
            rw [dictGet_dictPut_ne m run.name name _ fun hh => hn hh.symm]
            exact hall name
      · rw [if_neg hlt]
        refine ⟨hnodup, fun name => ?_⟩
        by_cases hn : run.name = name
        · subst hn
          rw [eventsForName_append_hit past e run hrun]
          refine ⟨?_, fun ws hws => ?_⟩
          · constructor
            · intro _
              simp
            · intro _
              rw [hc]
              rfl
          · obtain ⟨p, hp, heq, hmax⟩ := (hall run.name).2 ws hws
            refine ⟨p, List.mem_append_left _ hp, heq, fun q hq => ?_⟩
            rcases List.mem_append.mp hq with hq | hq
            · exact hmax q hq
            · rw [List.mem_singleton] at hq
              subst hq
              have hwc : ws = cur := by
                rw [hc] at hws
                injection hws with hws
                exact hws.symm
              rw [hwc]
              exact hlt
        · rw [eventsForName_append_miss past e run hrun name hn]
          exact hall name

theorem statusInv_foldl (events : List GitHubEvent) :
    ∀ (past : List GitHubEvent) (m : List (String × WorkflowStatus)),
      StatusInv past m → StatusInv (past ++ events) (events.foldl statusStep m) := by
  induction events with
  | nil =>
    intro past m h
    simpa using h
  | cons e rest ih =>
    intro past m h
    have h' := statusInv_step past m e h
    have h'' := ih (past ++ [e]) (statusStep m e) h'
    simpa [List.append_assoc] using h''

theorem statusInv_fold (events : List GitHubEvent) :
    StatusInv events (workflowStatusFold events) := by
  have h := statusInv_foldl events [] [] statusInv_nil
  simpa [workflowStatusFold] using h

theorem eventsForName_filter (events : List GitHubEvent) (name : String) :
    eventsForName (events.filter fun e => e.workflow_run.isSome) name
      = eventsForName events name := by
  induction events with
  | nil => rfl
  | cons e rest ih =>
    cases hrun : e.workflow_run with
    | none =>
      simp only [eventsForName, List.filter_cons, hrun, Option.isSome_none,
        Bool.false_eq_true, if_false, List.filterMap_cons]
      exact ih
    | some run =>
      simp only [eventsForName, List.filter_cons, hrun, Option.isSome_some,
        if_true, List.filterMap_cons]
      split
      · exact ih
      · rw [← eventsForName, ← eventsForName, ih]

theorem statusFold_pair (e1 e2 : GitHubEvent) (run1 run2 : WorkflowRun)
    (h1 : e1.workflow_run = some run1) (h2 : e2.workflow_run = some run2)
    (hname : run1.name = run2.name)
    (hlt : effectiveUpdatedAt e1 run1 < effectiveUpdatedAt e2 run2) :
    workflowStatusFold [e1, e2]
      = [(run2.name, mkWorkflowStatus run2 (effectiveUpdatedAt e2 run2))] := by
  have s1 : workflowStatusFold [e1, e2] = statusStep (statusStep [] e1) e2 := rfl
  rw [s1]
  have s2 : statusStep ([] : List (String × WorkflowStatus)) e1
      = [(run1.name, mkWorkflowStatus run1 (effectiveUpdatedAt e1 run1))] := by
    simp only [statusStep, h1]
    rfl
  rw [s2]
  simp only [statusStep, h2, dictGet]
  rw [if_pos hname]
  show (if (mkWorkflowStatus run1 (effectiveUpdatedAt e1 run1)).updated_at
        < effectiveUpdatedAt e2 run2 then
      dictPut [(run1.name, mkWorkflowStatus run1 (effectiveUpdatedAt e1 run1))]
        run2.name (mkWorkflowStatus run2 (effectiveUpdatedAt e2 run2))
    else [(run1.name, mkWorkflowStatus run1 (effectiveUpdatedAt e1 run1))])
    = [(run2.name, mkWorkflowStatus run2 (effectiveUpdatedAt e2 run2))]
  rw [show (mkWorkflowStatus run1 (effectiveUpdatedAt e1 run1)).updated_at
    = effectiveUpdatedAt e1 run1 from rfl]
  rw [if_pos hlt]
  simp only [dictPut]
  rw [if_pos hname, hname]

/-- C9: the workflow status query yields exactly one entry per distinct
workflow name among the validated events carrying a `workflow_run`; a
name is present exactly when such an event exists; the entry is built
from an event attaining the lexicographically greatest effective
`updated_at` (the run's `updated_at`, or the event's receipt timestamp
when the run lacks one) among that name's events; and two events for the
same workflow at `updated_at` T1 < T2 fold to the single entry carrying
the T2 run's status and conclusion. -/
theorem workflow_status_latest (raws : List JVal) (name : String)
    (e1 e2 : GitHubEvent) (run1 run2 : WorkflowRun)
    (h1 : e1.workflow_run = some run1) (h2 : e2.workflow_run = some run2)
    (hname : run1.name = run2.name)
    (hlt : effectiveUpdatedAt e1 run1 < effectiveUpdatedAt e2 run2) :
    ((dictGet (get_workflow_status raws none) name).isSome = true
       ↔ eventsForName (validateEvents raws) name ≠ [])
    ∧ (∀ ws, dictGet (get_workflow_status raws none) name = some ws →
        ∃ p ∈ eventsForName (validateEvents raws) name,
          ws = mkWorkflowStatus p.2 (effectiveUpdatedAt p.1 p.2)
          ∧ ∀ q ∈ eventsForName (validateEvents raws) name,
              ¬ ws.updated_at < effectiveUpdatedAt q.1 q.2)
    ∧ ((get_workflow_status raws none).map Prod.fst).Nodup
    ∧ workflowStatusFold [e1, e2]
        = [(run2.name, mkWorkflowStatus run2 (effectiveUpdatedAt e2 run2))] := by
  obtain ⟨hnodup, hall⟩ :=
    statusInv_fold ((validateEvents raws).filter fun e => e.workflow_run.isSome)
  have hgw : get_workflow_status raws none
      = workflowStatusFold
          ((validateEvents raws).filter fun e => e.workflow_run.isSome) := rfl
  rw [hgw]
  refine ⟨?_, ?_, hnodup, statusFold_pair e1 e2 run1 run2 h1 h2 hname hlt⟩
  · rw [← eventsForName_filter (validateEvents raws) name]
    exact (hall name).1
  · intro ws hws
    obtain ⟨p, hp, heq, hmax⟩ := (hall name).2 ws hws
    rw [eventsForName_filter] at hp hmax
    exact ⟨p, hp, heq, hmax⟩

/-- Sample run: "CI" still in progress, updated at T1. -/
def ciRun1 : WorkflowRun :=
  ⟨"CI", "in_progress", none, 1, "https://github.com/u/r/actions/runs/1",
    some "2024-01-01T00:00:00Z", none, none, []⟩

/-- Sample run: "CI" completed successfully, updated at T2 > T1. -/
def ciRun2 : WorkflowRun :=
  ⟨"CI", "completed", some "success", 2, "https://github.com/u/r/actions/runs/2",
    some "2024-01-02T00:00:00Z", none, none, []⟩

/-- Sample event carrying `ciRun1`. -/
def ciEvent1 : GitHubEvent :=
  ⟨"2024-01-01T00:00:01", "workflow_run", some "requested", some ciRun1,
    none, none, none, []⟩

/-- Sample event carrying `ciRun2`. -/
def ciEvent2 : GitHubEvent :=
  ⟨"2024-01-02T00:00:01", "workflow_run", some "completed", some ciRun2,
    none, none, none, []⟩

/-- C9 (witness): two "CI" events at T1 < T2 fold to the single entry
with the T2 run's status and conclusion. -/
theorem workflow_status_latest_witness :
    workflowStatusFold [ciEvent1, ciEvent2]
      = [("CI", mkWorkflowStatus ciRun2 "2024-01-02T00:00:00Z")] :=
  (workflow_status_latest [] "CI" ciEvent1 ciEvent2 ciRun1 ciRun2 rfl rfl rfl
    (by rw [show effectiveUpdatedAt ciEvent1 ciRun1 = "2024-01-01T00:00:00Z"
          from rfl,
        show effectiveUpdatedAt ciEvent2 ciRun2 = "2024-01-02T00:00:00Z"
          from rfl, String.lt_iff_toList_lt]
        decide)).2.2.2

end Probot
